import Mathlib

/-!
Verification of the `circular-array` crate (src/lib.rs, src/iter.rs): a
fixed-capacity overwrite-on-full ring buffer `CircularArray<N, T>` with
push, indexed read/write, snapshot (`to_array`), `last`, `len`, and a
forward iterator.

The embedding keeps the source field and method names: `arr` is the fixed
storage (a list of length `N`), `start` is the next write position, `len`
is the cumulative push counter.  Rust panics are modelled as `none` in
`Option`-returning variants; machine integers (`usize`) are modelled by
`Nat`, with `% N` written explicitly exactly where the source computes it.
-/

set_option autoImplicit false
set_option linter.unusedSectionVars false
set_option linter.unusedVariables false

/-- State of `CircularArray<N, T>` (src/lib.rs lines 9-13).  The capacity
`N` is a const generic in Rust; here it is passed to each operation, and
well-formed states have `arr.length = N`. -/
structure CircularArray (T : Type) where
  arr : List T
  start : Nat
  len : Nat
deriving Repr, DecidableEq

namespace CircularArray

variable {T : Type}

/-- `CircularArray::new` (lines 16-22): storage default-initialised,
`start = 0`, `len = 0`. -/
def new (N : Nat) (T : Type) [Inhabited T] : CircularArray T :=
  ⟨List.replicate N default, 0, 0⟩

/-- `CircularArray::push` (lines 39-47): write `item` at `start` when
`len >= N`, else at `len`; then `start = (start + 1) % N` and `len += 1`.
Total model: the slot write uses `List.set` (out-of-range is a no-op) and
Lean's `% 0` is the identity; `pushChecked` below models the panics. -/
def push (N : Nat) (s : CircularArray T) (item : T) : CircularArray T :=
  let a := if s.len ≥ N then s.arr.set s.start item else s.arr.set s.len item
  ⟨a, (s.start + 1) % N, s.len + 1⟩

/-- `CircularArray::push` with its panic points made explicit: the slot
write `self.arr[w] = item` panics when `w` is out of bounds, and
`(self.start + 1) % N` panics when `N = 0` (the write panics first, so the
bounds test comes first here).  `none` models the panic. -/
def pushChecked (N : Nat) (s : CircularArray T) (item : T) :
    Option (CircularArray T) :=
  let w := if s.len ≥ N then s.start else s.len
  if w < s.arr.length then
    if 0 < N then
      some ⟨s.arr.set w item, (s.start + 1) % N, s.len + 1⟩
    else none
  else none

/-- Pushing a whole list of values in order. -/
def pushAll (N : Nat) (s : CircularArray T) (vs : List T) : CircularArray T :=
  vs.foldl (push N) s

/-- The state reached from `new` by pushing `vs` in order. -/
def build (N : Nat) [Inhabited T] (vs : List T) : CircularArray T :=
  pushAll N (new N T) vs

/-- `Index::index` (lines 134-140): when `len >= N` read
`arr[(start + index) % N]`, else read `arr[index]`; the storage access
panics (here: `none`) when the physical index is out of bounds.  (For
`N = 0` Rust would panic on `% 0`; then `arr` is empty and the model also
yields `none`.) -/
def get (N : Nat) (s : CircularArray T) (index : Nat) : Option T :=
  if s.len ≥ N then s.arr[(s.start + index) % N]? else s.arr[index]?

/-- `IndexMut::index_mut` followed by assignment of `x` (lines 148-154):
same physical index computation as `get`; only `arr` changes.  Total model
via `List.set`. -/
def set (N : Nat) (s : CircularArray T) (index : Nat) (x : T) :
    CircularArray T :=
  if s.len ≥ N then ⟨s.arr.set ((s.start + index) % N) x, s.start, s.len⟩
  else ⟨s.arr.set index x, s.start, s.len⟩

/-- `IndexMut::index_mut` followed by assignment, with the storage bounds
panic made explicit as `none`. -/
def setChecked (N : Nat) (s : CircularArray T) (index : Nat) (x : T) :
    Option (CircularArray T) :=
  if s.len ≥ N then
    if (s.start + index) % N < s.arr.length then
      some ⟨s.arr.set ((s.start + index) % N) x, s.start, s.len⟩
    else none
  else
    if index < s.arr.length then some ⟨s.arr.set index x, s.start, s.len⟩
    else none

/-- `CircularArray::last` (lines 113-121): `len >= N` reads logical index
`N - 1`, `0 < len < N` reads logical index `len - 1`, else `None`.  The
inner `self[..]` goes through `Index::index`, so a storage panic there is
also `none`. -/
def last (N : Nat) (s : CircularArray T) : Option T :=
  if s.len ≥ N then get N s (N - 1)
  else if s.len > 0 then get N s (s.len - 1)
  else none

/- `CircularArray::len` (lines 123-125) returns the field `len` verbatim,
so the structure projection `CircularArray.len` is its embedding. -/

/-- One `std::ptr::copy_nonoverlapping(src.add(srcOff), dst.add(dstOff), cnt)`
on the destination list: element `j` of the copied block writes
`dst[dstOff + j] := src[srcOff + j]`.  A write landing outside `dst` never
reaches the returned array (`List.set` out of range is a no-op); in Rust
such a write is out-of-bounds UB, which `to_array` commits for
`0 < start < N - start` -- see the notes at `to_array`. -/
def copyBlock [Inhabited T] (src : List T) (srcOff : Nat) (dst : List T)
    (dstOff cnt : Nat) : List T :=
  (List.range cnt).foldl (fun d j => d.set (dstOff + j) (src.getD (srcOff + j) default)) dst

/-- `CircularArray::to_array` (lines 63-78): start from a
default-initialised array; when `len >= N && start > 0` copy
`N - start` elements from `src + start` to `dest`, then copy `N - start`
elements (sic: the source writes `N - self.start` where the rotation
needs `self.start`) from `src` to `dest + (N - start)`; otherwise copy all
`N` elements verbatim.  The second block therefore copies the wrong count
whenever `start != N - start`: too many (an out-of-bounds write past the
destination array) when `start < N - start`, too few (leaving default
filler in the result) when `start > N - start`. -/
def to_array (N : Nat) [Inhabited T] (s : CircularArray T) : List T :=
  let a := List.replicate N (default : T)
  if s.len ≥ N ∧ s.start > 0 then
    copyBlock s.arr 0 (copyBlock s.arr s.start a 0 (N - s.start))
      (N - s.start) (N - s.start)
  else
    copyBlock s.arr 0 a 0 N

end CircularArray

/-- `CircularArrayIter` (src/iter.rs lines 5-8): an immutable borrow of
the buffer (modelled by holding its value, which `next` never changes)
and a cursor `index`. -/
structure CircularArrayIter (T : Type) where
  circular_array : CircularArray T
  index : Nat
deriving Repr, DecidableEq

namespace CircularArrayIter

variable {T : Type}

/-- `CircularArrayIter::new` (lines 11-16): cursor starts at 0. -/
def new (s : CircularArray T) : CircularArrayIter T := ⟨s, 0⟩

/-- `CircularArrayIter::next` (lines 21-29): yield
`self.circular_array[self.index]` while `index < self.circular_array.seq`,
else `None`; the cursor advances either way.  `CircularArray` declares no
field `seq` (the crate does not compile as written, E0609); the only
counter field is `len`, which stands in for `seq` here.  Returns the
yielded value and the advanced iterator. -/
def next (N : Nat) (it : CircularArrayIter T) :
    Option T × CircularArrayIter T :=
  let r := if it.index < it.circular_array.len
    then CircularArray.get N it.circular_array it.index
    else none
  (r, ⟨it.circular_array, it.index + 1⟩)

/-- The results of `steps` successive calls to `next`, in order. -/
def run (N : Nat) : Nat → CircularArrayIter T → List (Option T)
  | 0, _ => []
  | steps + 1, it =>
    let p := next N it
    p.1 :: run N steps p.2

end CircularArrayIter

/-! ### State characterisation of push sequences -/

namespace CircularArray

variable {T : Type} [Inhabited T]

theorem len_push (N : Nat) (s : CircularArray T) (x : T) :
    (push N s x).len = s.len + 1 := rfl

theorem start_push (N : Nat) (s : CircularArray T) (x : T) :
    (push N s x).start = (s.start + 1) % N := rfl

theorem length_arr_push (N : Nat) (s : CircularArray T) (x : T) :
    (push N s x).arr.length = s.arr.length := by
  simp only [push]
  split <;> simp

theorem len_pushAll (N : Nat) (vs : List T) :
    ∀ s : CircularArray T, (pushAll N s vs).len = s.len + vs.length := by
  induction vs with
  | nil => intro s; simp [pushAll]
  | cons v vs ih =>
    intro s
    have h := ih (push N s v)
    simp only [pushAll, List.foldl_cons] at h ⊢
    rw [h, len_push, List.length_cons]
    omega

theorem length_arr_pushAll (N : Nat) (vs : List T) :
    ∀ s : CircularArray T, (pushAll N s vs).arr.length = s.arr.length := by
  induction vs with
  | nil => intro s; simp [pushAll]
  | cons v vs ih =>
    intro s
    have h := ih (push N s v)
    simp only [pushAll, List.foldl_cons] at h ⊢
    rw [h, length_arr_push]

theorem start_pushAll (N : Nat) (vs : List T) :
    ∀ s : CircularArray T, s.start % N = s.start →
      (pushAll N s vs).start = (s.start + vs.length) % N := by
  induction vs with
  | nil =>
    intro s hs
    simpa [pushAll] using hs.symm
  | cons v vs ih =>
    intro s hs
    have hmod : (push N s v).start % N = (push N s v).start := by
      rw [start_push]
      exact Nat.mod_mod_of_dvd _ dvd_rfl
    have h := ih (push N s v) hmod
    simp only [pushAll, List.foldl_cons] at h ⊢
    rw [h, start_push, Nat.mod_add_mod, List.length_cons]
    congr 1
    omega

theorem len_build (N : Nat) (vs : List T) : (build N vs).len = vs.length := by
  simpa [new] using len_pushAll N vs (new N T)

theorem length_arr_build (N : Nat) (vs : List T) :
    (build N vs).arr.length = N := by
  simpa [new] using length_arr_pushAll N vs (new N T)

theorem start_build (N : Nat) (vs : List T) :
    (build N vs).start = vs.length % N := by
  have h := start_pushAll N vs (new N T) (by simp [new])
  simpa [new] using h

theorem start_build_lt (N : Nat) (hN : 0 < N) (vs : List T) :
    (build N vs).start < N := by
  rw [start_build]
  exact Nat.mod_lt _ hN

theorem start_build_mod_len (N : Nat) (vs : List T) :
    (build N vs).start = (build N vs).len % N := by
  rw [start_build, len_build]

/-- While filling (every intermediate count stays below `N`), the slots at
and beyond the current count still hold their initial contents. -/
theorem fill_preserves_tail (N : Nat) (vs : List T) :
    ∀ s : CircularArray T, s.len + vs.length < N →
      (∀ j, s.len ≤ j → j < N → s.arr[j]? = some (default : T)) →
      ∀ j, (pushAll N s vs).len ≤ j → j < N →
        (pushAll N s vs).arr[j]? = some (default : T) := by
  induction vs with
  | nil => intro s _ hslots j hj hjN; simpa [pushAll] using hslots j hj hjN
  | cons v vs ih =>
    intro s hcnt hslots j hj hjN
    have hlt : s.len < N := by simp [List.length_cons] at hcnt; omega
    have hpush : ∀ j, (push N s v).len ≤ j → j < N →
        (push N s v).arr[j]? = some (default : T) := by
      intro j hj hjN
      rw [len_push] at hj
      have hne : ¬ s.len ≥ N := by omega
      simp only [push, if_neg hne]
      rw [List.getElem?_set_ne (by omega)]
      exact hslots j (by omega) hjN
    have h := ih (push N s v) (by rw [len_push]; simp [List.length_cons] at hcnt ⊢; omega) hpush
    simp only [pushAll, List.foldl_cons] at hj hjN ⊢
    exact h j hj hjN

/-- After a push onto a well-formed state, `last` returns the pushed
value: the physical slot that `last` reads back is exactly the slot the
push wrote. -/
theorem last_push (N : Nat) (hN : 0 < N) (s : CircularArray T)
    (hlen : s.arr.length = N) (hstart : s.start = s.len % N) (x : T) :
    last N (push N s x) = some x := by
  have hstartlt : s.start < N := by rw [hstart]; exact Nat.mod_lt _ hN
  have hidx : ((s.start + 1) % N + (N - 1)) % N = s.start := by
    rw [Nat.mod_add_mod]
    have h1 : s.start + 1 + (N - 1) = s.start + N := by omega
    rw [h1, Nat.add_mod_right]
    exact Nat.mod_eq_of_lt hstartlt
  by_cases hfull : s.len ≥ N
  · have hfull1 : s.len + 1 ≥ N := by omega
    have harr : (push N s x).arr = s.arr.set s.start x := by
      simp [push, if_pos hfull]
    simp only [last, get, len_push, start_push, harr, hidx]
    rw [if_pos hfull1, if_pos hfull1]
    exact List.getElem?_set_self (hlen ▸ hstartlt)
  · have hlt : s.len < N := by omega
    have hstarteq : s.start = s.len := by rw [hstart]; exact Nat.mod_eq_of_lt hlt
    have harr : (push N s x).arr = s.arr.set s.len x := by
      simp [push, if_neg hfull]
    have hwrite : (s.arr.set s.len x)[s.len]? = some x :=
      List.getElem?_set_self (by omega)
    by_cases hfull2 : s.len + 1 ≥ N
    · have hidx2 : ((s.len + 1) % N + (N - 1)) % N = s.len := by
        have h1 : s.len + 1 = N := by omega
        rw [h1, Nat.mod_self, Nat.zero_add, Nat.mod_eq_of_lt (by omega)]
        omega
      simp only [last, get, len_push, start_push, harr, hstarteq, hidx2]
      rw [if_pos hfull2, if_pos hfull2]
      exact hwrite
    · simp only [last, get, len_push, start_push, harr]
      rw [if_neg hfull2, if_pos (by omega : s.len + 1 > 0), if_neg hfull2,
        Nat.add_sub_cancel]
      exact hwrite

end CircularArray

/-! ### Claims -/

namespace CircularArray

variable {T : Type} [Inhabited T]

/-- C1: the claim says that for capacity N and k > N pushes, `to_array`
returns exactly the last N pushed values in push order (equivalently
`storage[start..N]` followed by `storage[0..start]`).  The code instead
copies `N - start` elements in the second block where the rotation needs
`start` of them, so for N = 3 and pushes 1..5 (start = 2) the result is
[3, 4, 0] — the default filler 0 in place of the most recent value 5 —
refuting the claimed output [3, 4, 5].  (The intended behaviour is stated
by the crate doc tests; the copy length is a slip, which for start = 1
also commits an out-of-bounds write past the destination array.) -/
theorem to_array_second_copy_miscount :
    to_array 3 (build 3 ([1, 2, 3, 4, 5] : List Nat)) = [3, 4, 0] ∧
    to_array 3 (build 3 ([1, 2, 3, 4, 5] : List Nat)) ≠ [3, 4, 5] := by
  decide

/-- C2: the claim says an iterator over a buffer with k pushes yields
exactly min(k, N) elements and then `none` forever.  The source compares
the cursor against a nonexistent field `seq` (compile error); with the
only counter field `len` standing in for it, the iterator on N = 3 after
pushes 1, 2, 3, 4 yields four elements [2, 3, 4, 2] — wrapping around and
repeating the element 2 — instead of the claimed min(4, 3) = 3. -/
theorem iter_yields_cumulative_count :
    CircularArrayIter.run 3 6
        (CircularArrayIter.new (build 3 ([1, 2, 3, 4] : List Nat))) =
      [some 2, some 3, some 4, some 2, none, none] := by
  decide

/-- C3 counterexample: the claim says an indexed access outside the valid
logical range fails, in particular that a full buffer fails on any index
at or beyond N.  On the full buffer of capacity 3 holding [1, 2, 3], the
read at logical index 5 succeeds and returns 3: once `len >= N` the code
maps every index through `% N` and never reaches a bounds check. -/
theorem full_buffer_out_of_range_read_succeeds :
    get 3 (build 3 ([1, 2, 3] : List Nat)) 5 = some 3 := by
  decide

/-- C3 amended: an out-of-range indexed read or write fails only while
the buffer is filling (`count < N`), where any index at or beyond N hits
the storage bounds check; once `count >= N`, every index — also indices
at or beyond N — is mapped modulo N onto a live slot and the access
succeeds instead of failing. -/
theorem index_bounds_amended (N : Nat) (hN : 0 < N) (vs : List T) (x : T) :
    (N ≤ vs.length → ∀ i,
      (get N (build N vs) i).isSome = true ∧
      (setChecked N (build N vs) i x).isSome = true) ∧
    (vs.length < N → ∀ i, N ≤ i →
      get N (build N vs) i = none ∧
      setChecked N (build N vs) i x = none) := by
  constructor
  · intro hge i
    have hfull : (build N vs).len ≥ N := by rw [len_build]; omega
    have hidx : ((build N vs).start + i) % N < (build N vs).arr.length := by
      rw [length_arr_build]; exact Nat.mod_lt _ hN
    constructor
    · simp only [get, if_pos hfull]
      rw [List.getElem?_eq_getElem hidx]
      rfl
    · simp only [setChecked, if_pos hfull, if_pos hidx]
      rfl
  · intro hlt i hi
    have hnotfull : ¬ ((build N vs).len ≥ N) := by rw [len_build]; omega
    constructor
    · simp only [get, if_neg hnotfull]
      exact List.getElem?_eq_none (by rw [length_arr_build]; omega)
    · simp only [setChecked, if_neg hnotfull]
      rw [if_neg (by rw [length_arr_build]; omega)]

theorem index_bounds_amended_witness :
    0 < 3 ∧ (get 3 (build 3 ([1, 2, 3] : List Nat)) 5).isSome = true :=
  ⟨by decide, ((index_bounds_amended 3 (by decide) [1, 2, 3] 9).1 (by decide) 5).1⟩

/-- C4: for capacity N of at least 1 and any nonempty push sequence,
`last` returns `some` of the most recently pushed value, and on the empty
buffer it returns `none` — stated as `last = getLast?` of the pushed
sequence. -/
theorem last_eq_most_recent_push (N : Nat) (hN : 0 < N) (vs : List T) :
    last N (build N vs) = vs.getLast? := by
  rcases List.eq_nil_or_concat vs with rfl | ⟨L, b, rfl⟩
  · have h0 : ¬ ((0 : Nat) ≥ N) := by omega
    simp [last, build, pushAll, new, h0]
  · rw [List.concat_eq_append]
    have hb : build N (L ++ [b]) = push N (build N L) b := by
      simp [build, pushAll, List.foldl_append]
    rw [hb, last_push N hN _ (length_arr_build N L) (start_build_mod_len N L) b,
      List.getLast?_concat]

theorem last_eq_most_recent_push_witness :
    0 < 3 ∧ last 3 (build 3 ([1, 2, 3, 4] : List Nat)) = some 4 :=
  ⟨by decide, (last_eq_most_recent_push 3 (by decide) [1, 2, 3, 4]).trans (by decide)⟩

/-- C5: after k pushes, `len` returns k — the cumulative number of
pushes, never capped at the capacity N. -/
theorem len_counts_all_pushes (N : Nat) (hN : 0 < N) (vs : List T) :
    (build N vs).len = vs.length :=
  len_build N vs

theorem len_counts_all_pushes_witness :
    0 < 3 ∧ (build 3 ([5, 6, 7, 8] : List Nat)).len = 4 :=
  ⟨by decide, (len_counts_all_pushes 3 (by decide) [5, 6, 7, 8]).trans (by decide)⟩

/-- C6: on any live logical index i (below both the push count and N),
writing x by indexed assignment and reading the same index back returns
x, identically in the filling phase and in the wrapping phase. -/
theorem set_then_get_roundtrip (N : Nat) (hN : 0 < N) (vs : List T)
    (i : Nat) (x : T) (hi : i < min vs.length N) :
    get N (set N (build N vs) i x) i = some x := by
  by_cases hfull : (build N vs).len ≥ N
  · have hidx : ((build N vs).start + i) % N < (build N vs).arr.length := by
      rw [length_arr_build]; exact Nat.mod_lt _ hN
    simp only [set, if_pos hfull, get]
    exact List.getElem?_set_self hidx
  · have hi2 : i < (build N vs).arr.length := by
      rw [length_arr_build]; omega
    simp only [set, if_neg hfull, get]
    exact List.getElem?_set_self hi2

theorem set_then_get_roundtrip_witness :
    0 < 3 ∧ 1 < min 4 3 ∧
      get 3 (set 3 (build 3 ([1, 2, 3, 4] : List Nat)) 1 9) 1 = some 9 :=
  ⟨by decide, by decide,
    set_then_get_roundtrip 3 (by decide) [1, 2, 3, 4] 1 9 (by decide)⟩

/-- C7: in every state reachable from the fresh buffer by pushes, the
next write position is below N, and while the buffer is filling
(`count < N`) it equals the count. -/
theorem next_write_invariant (N : Nat) (hN : 0 < N) (vs : List T) :
    (build N vs).start < N ∧
    ((build N vs).len < N → (build N vs).start = (build N vs).len) := by
  refine ⟨start_build_lt N hN vs, fun h => ?_⟩
  rw [start_build_mod_len]
  exact Nat.mod_eq_of_lt h

theorem next_write_invariant_witness :
    0 < 3 ∧ ((build 3 ([7, 8] : List Nat)).start < 3 ∧
      ((build 3 ([7, 8] : List Nat)).len < 3 →
        (build 3 ([7, 8] : List Nat)).start = (build 3 ([7, 8] : List Nat)).len)) :=
  ⟨by decide, next_write_invariant 3 (by decide) [7, 8]⟩

/-- C8: for capacity N of at least 1, `push` never fails on any reachable
buffer: its slot write is in bounds (`pushChecked` agrees with the total
`push`), it increments the count, advances the write position to
`(start + 1) % N`, and stores the item (which `last` then returns). -/
theorem push_never_fails (N : Nat) (hN : 0 < N) (vs : List T) (x : T) :
    pushChecked N (build N vs) x = some (push N (build N vs) x) ∧
    (push N (build N vs) x).len = (build N vs).len + 1 ∧
    (push N (build N vs) x).start = ((build N vs).start + 1) % N ∧
    last N (push N (build N vs) x) = some x := by
  refine ⟨?_, rfl, rfl,
    last_push N hN _ (length_arr_build N vs) (start_build_mod_len N vs) x⟩
  by_cases hfull : (build N vs).len ≥ N
  · have hw : (build N vs).start < (build N vs).arr.length := by
      rw [length_arr_build]; exact start_build_lt N hN vs
    simp [pushChecked, push, hfull, hw, hN]
  · have hw : (build N vs).len < (build N vs).arr.length := by
      rw [length_arr_build]; omega
    simp [pushChecked, push, hfull, hw, hN]

theorem push_never_fails_witness :
    0 < 3 ∧ pushChecked 3 (build 3 ([1, 2, 3] : List Nat)) 4 =
      some (push 3 (build 3 ([1, 2, 3] : List Nat)) 4) :=
  ⟨by decide, (push_never_fails 3 (by decide) [1, 2, 3] 4).1⟩

/-- C9: while the buffer is still filling (`count < N`), an indexed read
between the count and N returns the default-initialised filler value, and
an indexed read at or beyond N fails (the storage bounds check). -/
theorem filling_reads_defaults (N : Nat) (hN : 0 < N) (vs : List T)
    (hk : vs.length < N) :
    (∀ i, vs.length ≤ i → i < N → get N (build N vs) i = some (default : T)) ∧
    (∀ i, N ≤ i → get N (build N vs) i = none) := by
  have hnotfull : ¬ ((build N vs).len ≥ N) := by rw [len_build]; omega
  constructor
  · intro i hi hiN
    have hslots : ∀ j, (new N T : CircularArray T).len ≤ j → j < N →
        (new N T : CircularArray T).arr[j]? = some (default : T) := by
      intro j _ hj
      simp [new, List.getElem?_replicate, hj]
    have hcnt : (new N T : CircularArray T).len + vs.length < N := by
      simp [new]; omega
    have hle : (pushAll N (new N T) vs).len ≤ i := by
      rw [len_pushAll]; simp [new]; omega
    have h := fill_preserves_tail N vs (new N T) hcnt hslots i hle hiN
    simp only [get, if_neg hnotfull]
    exact h
  · intro i hi
    simp only [get, if_neg hnotfull]
    exact List.getElem?_eq_none (by rw [length_arr_build]; omega)

theorem filling_reads_defaults_witness :
    0 < 3 ∧ 2 < 3 ∧
      get 3 (build 3 ([7, 8] : List Nat)) 2 = some 0 ∧
      get 3 (build 3 ([7, 8] : List Nat)) 5 = none :=
  ⟨by decide, by decide,
    (filling_reads_defaults 3 (by decide) [7, 8] (by decide)).1 2 (by decide) (by decide),
    (filling_reads_defaults 3 (by decide) [7, 8] (by decide)).2 5 (by decide)⟩

/-- C10: with capacity N = 0, construction succeeds with no validation
(empty storage, zero count), and every subsequent `push` fails: the slot
write targets the zero-length storage (and the following `% 0` would also
panic), so neither of the two behaviours the spec permits for N = 0 is
realised. -/
theorem zero_capacity_new_ok_push_fails (x : Nat) :
    (new 0 Nat).arr = [] ∧ (new 0 Nat).len = 0 ∧
    pushChecked 0 (new 0 Nat) x = none :=
  ⟨rfl, rfl, rfl⟩

theorem zero_capacity_new_ok_push_fails_witness :
    pushChecked 0 (new 0 Nat) 7 = none :=
  (zero_capacity_new_ok_push_fails 7).2.2

end CircularArray
